import Mathlib

set_option autoImplicit false

/-!
# ViC editor (`Texteditor.c`): a shallow embedding and its checked properties

The C program keeps one global `struct editorConfig E`.  Here the global is an
explicit value that every operation takes and returns.  A C `int` is an integer
of the 32-bit two's-complement range; a sum or difference computed in `int` is
brought back into that range by `wrap32` (signed overflow, undefined in C, is
read as wrap-around).  Quotients and the row counter `y`, which stays below
`screenrows`, cannot leave the range.  A `char` (a byte) is a `Char`, a byte
string is a `List Char`.  Terminal set-up, `read`, `write` and `fopen` are not
modelled: an operation takes the byte read or the file's bytes and returns the
bytes it writes.  The append buffer holds at most `INT_MAX` bytes: an append
that would pass that length is dropped, as in `abAppend`, and an operation with
no defined result returns `none`.
-/

namespace ViC

/-! ## Machine integers -/

/-- Two's-complement reduction of an integer to the range of a 32-bit `int`. -/
def wrap32 (x : Int) : Int := (x + 2147483648) % 4294967296 - 2147483648

/-- A C `int`: an integer between `INT_MIN` and `INT_MAX`. -/
abbrev CInt := { x : Int // -2147483648 ≤ x ∧ x ≤ 2147483647 }

/-- The `int` that an integer result is stored as. -/
def CInt.ofInt (x : Int) : CInt := ⟨wrap32 x, by unfold wrap32; omega⟩

/-! ## Data (`Texteditor.c` lines 15-35) -/

/-- The macro `#define VIC_VERSION "0.0.1"`. -/
def VIC_VERSION : List Char := "0.0.1".toList

/-- The macro `#define CTRL_KEY(k) ((k) & 0x1f)`. -/
def CTRL_KEY (k : Char) : Char := Char.ofNat (k.toNat &&& 0x1f)

/-- The `typedef struct erow`: `chars` holds the bytes before the terminating NUL. -/
structure erow where
  size : CInt
  chars : List Char
deriving DecidableEq

/-- The `struct editorConfig` without `orig_termios`, which no operation below reads. -/
structure editorConfig where
  cx : CInt
  cy : CInt
  screenrows : CInt
  screencols : CInt
  numrows : CInt
  row : erow
deriving DecidableEq

/-! ## Input (`Texteditor.c` lines 194-230) -/

/-- Function `editorMoveCursor(key)`: the `switch` over the four navigation keys. -/
def editorMoveCursor (E : editorConfig) (key : Char) : editorConfig :=
  if key = 'h' then
    if E.cx.val > 0 then { E with cx := CInt.ofInt (E.cx.val - 1) } else E
  else if key = 'm' then
    if E.cx.val < wrap32 (E.screencols.val - 1) then
      { E with cx := CInt.ofInt (E.cx.val + 1) } else E
  else if key = 'k' then
    if E.cy.val > 0 then { E with cy := CInt.ofInt (E.cy.val - 1) } else E
  else if key = 'j' then
    if E.cy.val < wrap32 (E.screenrows.val - 1) then
      { E with cy := CInt.ofInt (E.cy.val + 1) } else E
  else E

/-- What one call of `editorProcessKeypress` leads to: it returns into the
`while (1)` loop of `main` with a state, or it ends the process through
`exit(status)` after writing `out` to standard output. -/
inductive Outcome where
  | running (E : editorConfig)
  | terminated (out : List Char) (status : Int)
deriving DecidableEq

/-- Function `editorProcessKeypress()`, with `c` the byte that `editorReadKey` returned. -/
def editorProcessKeypress (E : editorConfig) (c : Char) : Outcome :=
  if c = CTRL_KEY 'q' then
    Outcome.terminated ("\x1b[H".toList ++ "\x1b[2J".toList) 0
  else if c = 'h' ∨ c = 'j' ∨ c = 'k' ∨ c = 'm' then
    Outcome.running (editorMoveCursor E c)
  else
    Outcome.running E

/-! ## Append buffer (`Texteditor.c` lines 110-136) -/

/-- The `struct abuf`: the bytes `b[0 .. len-1]`; `int len` is the length of the
list. -/
abbrev abuf := List Char

/-- The macro `#define ABUF_INIT` with `b = NULL`, `len = 0`: the empty buffer. -/
def ABUF_INIT : abuf := []

/-- Function `abAppend(ab, s, len)`, `len` being an `int`.  The request `realloc(ab->b, ab->len + len)`
is computed in `int`: a sum outside the `int` range wraps to a negative value,
which as a `size_t` is a size no allocation can have, so `realloc` returns
`NULL` and the call returns with the buffer unchanged (`if (new == NULL)
return;`).  Every other request is taken to succeed.  Then `memcpy` copies
`len` bytes: for a negative `len` that is a copy of `(size_t)len` bytes, which
has no defined result (`none`).  Where `s` holds fewer than `len` bytes the C
code reads past its end; the model copies the bytes that `s` holds. -/
def abAppend (ab : abuf) (s : List Char) (len : Int) : Option abuf :=
  if wrap32 ((ab.length : Int) + len) < 0 then some ab
  else if len < 0 then none
  else some (ab ++ s.take len.toNat)

/-! ## Output (`Texteditor.c` lines 140-189) -/

/-- The text that `snprintf(welcome, sizeof(welcome), "ViC editor -- version %s",
VIC_VERSION)` formats. -/
def welcomeText : List Char := "ViC editor -- version ".toList ++ VIC_VERSION

/-- The array `char welcome[80]` after the `snprintf`: at most 79 bytes are stored. -/
def welcome : List Char := welcomeText.take 79

/-- The variable `int welcomelen`: the return value of the `snprintf`, the formatted length. -/
def welcomelen : Int := welcomeText.length

/-- The loop `while (padding--) abAppend(ab, " ", 1);`: the test reads `padding`, then
`padding` is decremented (wrapping below `INT_MIN`), then the body runs. -/
def padLoop (padding : CInt) (ab : abuf) : Option abuf :=
  if padding.val = 0 then some ab
  else (abAppend ab " ".toList 1).bind fun ab1 => padLoop (CInt.ofInt (padding.val - 1)) ab1
termination_by (padding.val % 4294967296).toNat
decreasing_by
  simp only [CInt.ofInt, wrap32]
  omega

/-- Lines 145-154: the welcome branch of `editorDrawsRows`. -/
def drawWelcome (E : editorConfig) (ab : abuf) : Option abuf :=
  let padding : CInt := CInt.ofInt (Int.tdiv (wrap32 (E.screencols.val - welcomelen)) 2)
  let padding1 : CInt := if padding.val ≠ 0 then CInt.ofInt (padding.val - 1) else padding
  let welcomelen1 : Int := if welcomelen > E.screencols.val then E.screencols.val else welcomelen
  (if padding.val ≠ 0 then abAppend ab "~".toList 1 else some ab).bind fun ab1 =>
  (padLoop padding1 ab1).bind fun ab2 =>
  abAppend ab2 welcome welcomelen1

/-- Lines 143-164: what the loop body of `editorDrawsRows` appends for screen
row `y` before the clear-to-end-of-line sequence. -/
def drawRowContent (E : editorConfig) (y : Int) (ab : abuf) : Option abuf :=
  if y ≥ E.numrows.val then
    if E.numrows.val = 0 ∧ y = Int.tdiv E.screenrows.val 3 then drawWelcome E ab
    else abAppend ab "~".toList 1
  else
    let len : Int := if E.row.size.val > E.screencols.val then E.screencols.val else E.row.size.val
    abAppend ab E.row.chars len

/-- Lines 143-169: the whole loop body of `editorDrawsRows` for screen row `y`. -/
def drawRow (E : editorConfig) (y : Int) (ab : abuf) : Option abuf :=
  (drawRowContent E y ab).bind fun ab1 =>
  (abAppend ab1 "\x1b[K".toList 3).bind fun ab2 =>
  if y < wrap32 (E.screenrows.val - 1) then abAppend ab2 "\r\n".toList 2 else some ab2

/-- The rows `ys` of the loop `for (y = ...; y < E.screenrows; y++)`, in order. -/
def drawRows (E : editorConfig) : List Nat → abuf → Option abuf
  | [], ab => some ab
  | y :: ys, ab => (drawRow E (y : Int) ab).bind fun ab1 => drawRows E ys ab1

/-- Function `editorDrawsRows(ab)`: `for (y = 0; y < E.screenrows; y++)` over the loop body. -/
def editorDrawsRows (E : editorConfig) (ab : abuf) : Option abuf :=
  drawRows E (List.range E.screenrows.val.toNat) ab

/-- The conversion `%d` of `snprintf`. -/
def fmtD (n : Int) : List Char :=
  if n < 0 then '-' :: (Nat.repr n.natAbs).toList else (Nat.repr n.toNat).toList

/-- The call `snprintf(buf, sizeof(buf), "\x1b[%d;%dH", row, col)` into `char buf[32]`:
at most 31 bytes are stored. -/
def snprintfCursor (row col : CInt) : List Char :=
  ("\x1b[".toList ++ fmtD row.val ++ ";".toList ++ fmtD col.val ++ "H".toList).take 31

/-- Function `editorRefreshScreen()`: the bytes `ab.b[0 .. ab.len-1]` handed to
the one `write` call, or `none` where an append has no defined result. -/
def editorRefreshScreen (E : editorConfig) : Option (List Char) :=
  (abAppend ABUF_INIT "\x1b[?25l".toList 6).bind fun ab1 =>
  (abAppend ab1 "\x1b[H".toList 3).bind fun ab2 =>
  (editorDrawsRows E ab2).bind fun ab3 =>
  let buf := snprintfCursor (CInt.ofInt (E.cy.val + 1)) (CInt.ofInt (E.cx.val + 1))
  (abAppend ab3 buf buf.length).bind fun ab4 =>
  abAppend ab4 "\x1b[?25h".toList 6

/-- The bytes of screen row `y` when the row is drawn into an empty buffer. -/
def rowContent (E : editorConfig) (y : Int) : Option (List Char) :=
  drawRowContent E y ABUF_INIT

/-! ## File input (`Texteditor.c` lines 86-106) -/

/-- The bytes `getline` stores for a stream positioned at `fp`: everything up to
and including the first newline, or up to the end of the stream. -/
def readLine : List Char → List Char
  | [] => []
  | c :: cs => if c = '\n' then [c] else c :: readLine cs

/-- The call `getline(&line, &linecap, fp)`: `none` stands for the return value `-1` at
end of input; otherwise the line read, whose length is the return value. -/
def getline (fp : List Char) : Option (List Char) :=
  if fp = [] then none else some (readLine fp)

/-- The loop `while (linelen > 0 && (line[linelen - 1] == '\n' ||
line[linelen - 1] == '\n')) linelen--;`, returning the final `linelen`. -/
def stripLoop (line : List Char) : Nat → Nat
  | 0 => 0
  | n + 1 =>
    if line.get? n = some '\n' ∨ line.get? n = some '\n' then stripLoop line n else n + 1

/-- Function `editorOpen(filename)` for a file that `fopen` could open, `file` being its
bytes. -/
def editorOpen (E : editorConfig) (file : List Char) : editorConfig :=
  match getline file with
  | none => E
  | some line =>
    let linelen : Nat := stripLoop line line.length
    { E with
      row := { size := CInt.ofInt linelen, chars := line.take linelen },
      numrows := CInt.ofInt 1 }

/-! ## Predicates and sample inputs -/

/-- The cursor lies on the screen: `0 <= cx < screencols`, `0 <= cy < screenrows`. -/
def inBounds (E : editorConfig) : Prop :=
  0 ≤ E.cx.val ∧ E.cx.val < E.screencols.val ∧ 0 ≤ E.cy.val ∧ E.cy.val < E.screenrows.val

instance (E : editorConfig) : Decidable (inBounds E) := by
  unfold inBounds; infer_instance

/-- A sample state: an 80x24 screen, cursor at column 5 of row 3, no line loaded. -/
def sampleState : editorConfig :=
  { cx := ⟨5, by decide⟩, cy := ⟨3, by decide⟩, screenrows := ⟨24, by decide⟩,
    screencols := ⟨80, by decide⟩, numrows := ⟨0, by decide⟩,
    row := { size := ⟨0, by decide⟩, chars := [] } }

/-- A narrow terminal: 10 columns, 24 rows, no line loaded, cursor at home. -/
def narrowScreen : editorConfig :=
  { cx := ⟨0, by decide⟩, cy := ⟨0, by decide⟩, screenrows := ⟨24, by decide⟩,
    screencols := ⟨10, by decide⟩, numrows := ⟨0, by decide⟩,
    row := { size := ⟨0, by decide⟩, chars := [] } }

/-- The welcome row as the specification words it, for a padding
`(screencols - 27) / 2` that is not negative: for a positive padding one "~",
`padding - 1` blanks and the banner text, otherwise the banner text cut to the
screen width. -/
def welcomeRowSpec (screencols : Int) : List Char :=
  if 0 < Int.tdiv (screencols - 27) 2 then
    '~' :: (List.replicate (Int.tdiv (screencols - 27) 2 - 1).toNat ' ' ++ welcome)
  else welcome.take screencols.toNat

/-- The content of screen row `y` as the specification words it: the stored
line cut to the screen width for a row of the line, the welcome row at index
`screenrows / 3` when no line is loaded, the marker glyph otherwise. -/
def rowSpec (E : editorConfig) (y : Int) : List Char :=
  if y ≥ E.numrows.val then
    if E.numrows.val = 0 ∧ y = Int.tdiv E.screenrows.val 3 then welcomeRowSpec E.screencols.val
    else "~".toList
  else E.row.chars.take (min E.row.size.val E.screencols.val).toNat

/-- The frame as the specification words it: hide-cursor, cursor-home, every row
followed by clear-to-end-of-line and, except the last, by carriage return and
newline, then the cursor position one-based, then show-cursor. -/
def frameSpec (E : editorConfig) : List Char :=
  "\x1b[?25l".toList ++ "\x1b[H".toList ++
  (List.range E.screenrows.val.toNat).flatMap (fun (y : Nat) =>
    rowSpec E (y : Int) ++ "\x1b[K".toList ++
      (if (y : Int) < E.screenrows.val - 1 then "\r\n".toList else [])) ++
  ("\x1b[".toList ++ fmtD (E.cy.val + 1) ++ ";".toList ++ fmtD (E.cx.val + 1) ++ "H".toList) ++
  "\x1b[?25h".toList

/-! ## Helper lemmas -/

theorem CInt.ofInt_val (x : Int) : (CInt.ofInt x).val = wrap32 x := rfl

theorem wrap32_of_range (x : Int) (h1 : -2147483648 ≤ x) (h2 : x ≤ 2147483647) :
    wrap32 x = x := by
  unfold wrap32; omega

theorem CTRL_KEY_q : CTRL_KEY 'q' = Char.ofNat 0x11 := by decide

/-- On an in-bounds state a cursor move keeps the cursor on the screen. -/
theorem editorMoveCursor_inBounds (E : editorConfig) (key : Char) (h : inBounds E) :
    inBounds (editorMoveCursor E key) := by
  obtain ⟨h1, h2, h3, h4⟩ := h
  have hc := E.screencols.property
  have hr := E.screenrows.property
  unfold editorMoveCursor inBounds
  split_ifs <;> (try simp only [CInt.ofInt_val]) <;> (try unfold wrap32 at *) <;>
    refine ⟨?_, ?_, ?_, ?_⟩ <;> omega

theorem welcomelen_eq : welcomelen = 27 := by decide

theorem welcome_eq : welcome = "ViC editor -- version 0.0.1".toList := by decide

/-- An append that keeps the buffer within `INT_MAX` bytes is carried out. -/
theorem abAppend_fits (ab : abuf) (s : List Char) (len : Int) (h0 : 0 ≤ len)
    (h : (ab.length : Int) + len ≤ 2147483647) :
    abAppend ab s len = some (ab ++ s.take len.toNat) := by
  unfold abAppend
  rw [wrap32_of_range _ (by omega) h, if_neg (by omega), if_neg (by omega)]

/-- An append that would take the buffer past `INT_MAX` bytes is dropped. -/
theorem abAppend_dropped (ab : abuf) (s : List Char) (len : Int)
    (hl : len ≤ 2147483647) (hab : (ab.length : Int) ≤ 2147483647)
    (h : 2147483647 < (ab.length : Int) + len) :
    abAppend ab s len = some ab := by
  unfold abAppend
  rw [if_pos (by unfold wrap32; omega)]

/-- A buffer of `INT_MAX` bytes takes no further append. -/
theorem abAppend_saturated (ab : abuf) (s : List Char) (len : Int) (h0 : 0 ≤ len)
    (hl : len ≤ 2147483647) (hab : (ab.length : Int) = 2147483647) :
    abAppend ab s len = some ab := by
  by_cases h : len = 0
  · rw [abAppend_fits ab s len h0 (by omega), h]; simp
  · exact abAppend_dropped ab s len hl (by omega) (by omega)

/-- The padding loop appends one blank per count of the unsigned 32-bit value of
its counter, as long as the buffer has fewer than `INT_MAX` bytes. -/
theorem padLoop_eq (n : Nat) : ∀ (p : CInt) (ab : abuf),
    (p.val % 4294967296).toNat = n → (ab.length : Int) ≤ 2147483647 →
    padLoop p ab = some (ab ++ List.replicate (min n (2147483647 - ab.length)) ' ') := by
  induction n with
  | zero =>
    intro p ab h _
    have hp := p.property
    have h0 : p.val = 0 := by omega
    rw [padLoop, if_pos h0]; simp
  | succ n ih =>
    intro p ab h hab
    have hp := p.property
    have h0 : p.val ≠ 0 := by omega
    have hn : ((CInt.ofInt (p.val - 1)).val % 4294967296).toNat = n := by
      simp only [CInt.ofInt_val, wrap32]; omega
    rw [padLoop, if_neg h0]
    by_cases hfull : (ab.length : Int) = 2147483647
    · rw [abAppend_saturated ab _ 1 (by decide) (by decide) hfull, Option.some_bind,
        ih _ ab hn hab]
      have e1 : 2147483647 - ab.length = 0 := by omega
      rw [e1]; simp
    · rw [abAppend_fits ab _ 1 (by decide) (by omega), Option.some_bind,
        ih _ _ hn (by rw [List.length_append, List.length_take]; omega)]
      have e1 : min (n + 1) (2147483647 - ab.length) =
          1 + min n (2147483647 - (ab ++ List.take (Int.toNat 1) " ".toList).length) := by
        have : (ab ++ List.take (Int.toNat 1) " ".toList).length = ab.length + 1 := by
          simp
        rw [this]; omega
      rw [e1, Nat.add_comm 1, List.replicate_succ]
      simp


/-- The padding of the welcome row on a screen of 0 to 25 columns is negative. -/
theorem padding_of_narrow (c : Int) (h0 : 0 ≤ c) (h25 : c ≤ 25) :
    -13 ≤ wrap32 (Int.tdiv (wrap32 (c - 27)) 2) ∧ wrap32 (Int.tdiv (wrap32 (c - 27)) 2) ≤ -1 := by
  interval_cases c <;> decide

/-- The welcome branch on a screen of 0 to 25 columns: "~", then blanks until
the buffer holds `INT_MAX` bytes; the banner bytes are not appended. -/
theorem drawWelcome_narrow (E : editorConfig) (ab : abuf)
    (h0 : 0 ≤ E.screencols.val) (h25 : E.screencols.val ≤ 25)
    (hab : (ab.length : Int) < 2147483647) :
    drawWelcome E ab = some (ab ++ '~' :: List.replicate (2147483646 - ab.length) ' ') := by
  obtain ⟨hp1, hp2⟩ := padding_of_narrow E.screencols.val h0 h25
  unfold drawWelcome
  simp only [welcomelen_eq, CInt.ofInt_val]
  generalize wrap32 (Int.tdiv (wrap32 (E.screencols.val - 27)) 2) = p at hp1 hp2
  have hne : p ≠ 0 := by omega
  rw [if_pos hne, if_pos hne, if_pos (by omega : (27 : Int) > E.screencols.val),
    abAppend_fits ab _ 1 (by decide) (by omega), Option.some_bind]
  have hlen1 : ((ab ++ List.take (Int.toNat 1) "~".toList).length : Int) = ab.length + 1 := by
    simp
  rw [padLoop_eq _ (CInt.ofInt (p - 1)) _ rfl (by omega), Option.some_bind]
  have hmin : min ((CInt.ofInt (p - 1)).val % 4294967296).toNat
      (2147483647 - (ab ++ List.take (Int.toNat 1) "~".toList).length) =
      2147483646 - ab.length := by
    simp only [CInt.ofInt_val, wrap32]
    have : (ab ++ List.take (Int.toNat 1) "~".toList).length = ab.length + 1 := by simp
    rw [this]; omega
  rw [hmin, abAppend_saturated _ _ _ h0 (by omega) (by
    simp only [List.length_append, List.length_replicate, List.length_take]
    have : ("~".toList).length = 1 := by decide
    push_cast
    omega)]
  simp


/-- A row that is neither a row of the stored line nor the welcome row is the
one-byte append of the marker glyph. -/
theorem drawRowContent_tilde (E : editorConfig) (y : Int) (ab : abuf)
    (hy : E.numrows.val ≤ y) (hne : ¬ (E.numrows.val = 0 ∧ y = Int.tdiv E.screenrows.val 3)) :
    drawRowContent E y ab = abAppend ab "~".toList 1 := by
  unfold drawRowContent
  rw [if_pos hy, if_neg hne]

/-- A marker row that is not the last row, drawn where six more bytes fit. -/
theorem drawRow_tilde_fits (E : editorConfig) (y : Int) (ab : abuf)
    (hy : E.numrows.val ≤ y) (hne : ¬ (E.numrows.val = 0 ∧ y = Int.tdiv E.screenrows.val 3))
    (hlast : y < E.screenrows.val - 1) (hfit : (ab.length : Int) + 6 ≤ 2147483647) :
    drawRow E y ab = some (ab ++ "~\x1b[K\r\n".toList) := by
  have hr := E.screenrows.property
  have hnp := E.numrows.property
  unfold drawRow
  rw [drawRowContent_tilde E y ab hy hne, abAppend_fits ab _ 1 (by decide) (by omega),
    Option.some_bind,
    abAppend_fits _ _ 3 (by decide) (by simp only [List.length_append, List.length_take]; omega),
    Option.some_bind, wrap32_of_range _ (by omega) (by omega), if_pos hlast,
    abAppend_fits _ _ 2 (by decide) (by simp only [List.length_append, List.length_take]; omega)]
  simp

/-- A marker row drawn into a buffer of `INT_MAX` bytes appends nothing. -/
theorem drawRow_tilde_saturated (E : editorConfig) (y : Int) (ab : abuf)
    (hy : E.numrows.val ≤ y) (hne : ¬ (E.numrows.val = 0 ∧ y = Int.tdiv E.screenrows.val 3))
    (hab : (ab.length : Int) = 2147483647) :
    drawRow E y ab = some ab := by
  unfold drawRow
  rw [drawRowContent_tilde E y ab hy hne,
    abAppend_saturated ab _ 1 (by decide) (by decide) hab, Option.some_bind,
    abAppend_saturated ab _ 3 (by decide) (by decide) hab, Option.some_bind]
  split_ifs
  · exact abAppend_saturated ab _ 2 (by decide) (by decide) hab
  · rfl

/-- The welcome row on a screen of 0 to 25 columns: "~" and blanks fill the
buffer to `INT_MAX` bytes; banner, clear-to-end-of-line and line break are not
appended. -/
theorem drawRow_welcome_narrow (E : editorConfig) (ab : abuf)
    (hr : 0 ≤ E.screenrows.val) (hn : E.numrows.val = 0)
    (h0 : 0 ≤ E.screencols.val) (h25 : E.screencols.val ≤ 25)
    (hab : (ab.length : Int) < 2147483647) :
    drawRow E (Int.tdiv E.screenrows.val 3) ab =
      some (ab ++ '~' :: List.replicate (2147483646 - ab.length) ' ') := by
  have h3 : 0 ≤ Int.tdiv E.screenrows.val 3 := Int.tdiv_nonneg hr (by decide)
  have hfull : ((ab ++ '~' :: List.replicate (2147483646 - ab.length) ' ').length : Int) =
      2147483647 := by
    simp only [List.length_append, List.length_cons, List.length_replicate]
    omega
  unfold drawRow drawRowContent
  rw [if_pos (by omega), if_pos ⟨hn, rfl⟩, drawWelcome_narrow E ab h0 h25 hab, Option.some_bind,
    abAppend_saturated _ _ 3 (by decide) (by decide) hfull, Option.some_bind]
  split_ifs
  · exact abAppend_saturated _ _ 2 (by decide) (by decide) hfull
  · rfl

theorem drawRows_append (E : editorConfig) (l1 l2 : List Nat) (ab : abuf) :
    drawRows E (l1 ++ l2) ab = (drawRows E l1 ab).bind fun ab1 => drawRows E l2 ab1 := by
  induction l1 generalizing ab with
  | nil => simp [drawRows]
  | cons y ys ih =>
    simp only [List.cons_append, drawRows]
    cases drawRow E (y : Int) ab with
    | none => rfl
    | some ab1 => simp only [Option.some_bind]; exact ih ab1

/-- Marker rows drawn into a buffer of `INT_MAX` bytes append nothing. -/
theorem drawRows_saturated (E : editorConfig) (l : List Nat) (ab : abuf)
    (hl : ∀ y ∈ l, E.numrows.val ≤ (y : Int) ∧
      ¬ (E.numrows.val = 0 ∧ (y : Int) = Int.tdiv E.screenrows.val 3))
    (hab : (ab.length : Int) = 2147483647) :
    drawRows E l ab = some ab := by
  induction l with
  | nil => rfl
  | cons y ys ih =>
    have hy := hl y (List.mem_cons_self _ _)
    simp only [drawRows]
    rw [drawRow_tilde_saturated E y ab hy.1 hy.2 hab, Option.some_bind]
    exact ih (fun z hz => hl z (List.mem_cons_of_mem _ hz))

/-- Marker rows before the last row, drawn where they fit: six bytes each. -/
theorem drawRows_tilde_fits (E : editorConfig) (k : Nat) : ∀ (s : Nat) (ab : abuf),
    (∀ y, s ≤ y → y < s + k → E.numrows.val ≤ (y : Int) ∧
      ¬ (E.numrows.val = 0 ∧ (y : Int) = Int.tdiv E.screenrows.val 3) ∧
      (y : Int) < E.screenrows.val - 1) →
    (ab.length : Int) + 6 * k ≤ 2147483647 →
    drawRows E (List.range' s k) ab =
      some (ab ++ (List.replicate k "~\x1b[K\r\n".toList).flatten) := by
  induction k with
  | zero => intro s ab _ _; simp [drawRows]
  | succ k ih =>
    intro s ab hl hfit
    have hs := hl s (le_refl _) (by omega)
    rw [List.range'_succ]
    simp only [drawRows]
    rw [drawRow_tilde_fits E s ab hs.1 hs.2.1 hs.2.2 (by omega), Option.some_bind,
      ih (s + 1) _ (fun y h1 h2 => hl y (by omega) (by omega)) (by
        have : ("~\x1b[K\r\n".toList).length = 6 := by decide
        simp only [List.length_append, this]; push_cast; omega)]
    simp [List.replicate_succ]


theorem range_split (k m : Nat) :
    List.range (k + 1 + m) = List.range' 0 k ++ k :: List.range' (k + 1) m := by
  rw [List.range_eq_range', show k + 1 + m = (m + 1) + k by omega,
    ← List.range'_append_1 0 k (m + 1), List.range'_succ]
  simp

/-- With no line loaded on a screen of 0 to 25 columns, `editorDrawsRows` appends
the marker rows above row `screenrows / 3`, then "~" and blanks until the buffer
holds `INT_MAX` bytes, and nothing after that: no banner byte, no further row. -/
theorem editorDrawsRows_narrow (E : editorConfig) (ab : abuf)
    (hn : E.numrows.val = 0) (hr : 0 < E.screenrows.val)
    (h0 : 0 ≤ E.screencols.val) (h25 : E.screencols.val ≤ 25)
    (hfit : (ab.length : Int) + 6 * (E.screenrows.val / 3) < 2147483647) :
    editorDrawsRows E ab =
      some (ab ++ (List.replicate (E.screenrows.val / 3).toNat "~\x1b[K\r\n".toList).flatten ++
        '~' :: List.replicate
          (2147483646 - (ab.length + 6 * (E.screenrows.val / 3).toNat)) ' ') := by
  have hd : Int.tdiv E.screenrows.val 3 = E.screenrows.val / 3 :=
    Int.tdiv_eq_ediv (le_of_lt hr) (by decide)
  obtain ⟨k, hk⟩ : ∃ k : Nat, (k : Int) = E.screenrows.val / 3 :=
    ⟨(E.screenrows.val / 3).toNat, by omega⟩
  obtain ⟨m, hm⟩ : ∃ m : Nat, E.screenrows.val.toNat = k + 1 + m :=
    ⟨E.screenrows.val.toNat - (k + 1), by omega⟩
  have hkk : (E.screenrows.val / 3).toNat = k := by omega
  have h6 : ("~\x1b[K\r\n".toList).length = 6 := by decide
  unfold editorDrawsRows
  rw [hm, range_split, drawRows_append,
    drawRows_tilde_fits E k 0 ab (fun y _ h2 => ⟨by omega, fun h => by omega, by omega⟩)
      (by omega),
    Option.some_bind]
  simp only [drawRows]
  have hw := drawRow_welcome_narrow E
    (ab ++ (List.replicate k "~\x1b[K\r\n".toList).flatten) (le_of_lt hr) hn h0 h25 (by
      simp only [List.length_append, List.length_flatten, List.map_replicate,
        List.sum_replicate, h6, smul_eq_mul]
      push_cast; omega)
  rw [hd, ← hk] at hw
  rw [hw, Option.some_bind, drawRows_saturated E _ _ (fun y hy => by
      have := (List.mem_range'_1.mp hy).1
      exact ⟨by omega, fun h => by omega⟩) (by
      simp only [List.length_append, List.length_flatten, List.map_replicate,
        List.sum_replicate, h6, smul_eq_mul, List.length_cons, List.length_replicate]
      push_cast; omega)]
  simp only [hkk, List.length_append, List.length_flatten, List.map_replicate,
    List.sum_replicate, h6, smul_eq_mul, Nat.mul_comm]


theorem snprintfCursor_length (row col : CInt) : (snprintfCursor row col).length ≤ 31 := by
  unfold snprintfCursor
  exact List.length_take_le _ _

/-- With no line loaded on a screen of 0 to 25 columns the frame is: hide-cursor,
cursor-home, the marker rows above row `screenrows / 3`, then "~" and blanks up
to `INT_MAX` bytes.  Banner, later rows, cursor position and show-cursor are not
appended. -/
theorem editorRefreshScreen_narrow (E : editorConfig)
    (hn : E.numrows.val = 0) (hr : 0 < E.screenrows.val)
    (h0 : 0 ≤ E.screencols.val) (h25 : E.screencols.val ≤ 25)
    (hfit : 9 + 6 * (E.screenrows.val / 3) < 2147483647) :
    editorRefreshScreen E =
      some ("\x1b[?25l".toList ++ "\x1b[H".toList ++
        (List.replicate (E.screenrows.val / 3).toNat "~\x1b[K\r\n".toList).flatten ++
        '~' :: List.replicate (2147483637 - 6 * (E.screenrows.val / 3).toNat) ' ') := by
  have e1 : abAppend ABUF_INIT "\x1b[?25l".toList 6 = some "\x1b[?25l".toList := by decide
  have e2 : abAppend "\x1b[?25l".toList "\x1b[H".toList 3 =
      some ("\x1b[?25l".toList ++ "\x1b[H".toList) := by decide
  have h9 : ("\x1b[?25l".toList ++ "\x1b[H".toList).length = 9 := by decide
  have h6 : ("~\x1b[K\r\n".toList).length = 6 := by decide
  have hsub : 2147483646 - (9 + 6 * (E.screenrows.val / 3).toNat) =
      2147483637 - 6 * (E.screenrows.val / 3).toNat := by omega
  have hlen := snprintfCursor_length (CInt.ofInt (E.cy.val + 1)) (CInt.ofInt (E.cx.val + 1))
  have hfull : (("\x1b[?25l".toList ++ "\x1b[H".toList ++
        (List.replicate (E.screenrows.val / 3).toNat "~\x1b[K\r\n".toList).flatten ++
        '~' :: List.replicate (2147483637 - 6 * (E.screenrows.val / 3).toNat) ' ').length : Int)
      = 2147483647 := by
    simp only [List.length_append, List.length_flatten, List.map_replicate,
      List.sum_replicate, h6, h9, smul_eq_mul, List.length_cons, List.length_replicate]
    push_cast; omega
  unfold editorRefreshScreen
  rw [e1, Option.some_bind, e2, Option.some_bind,
    editorDrawsRows_narrow E _ hn hr h0 h25 (by rw [h9]; push_cast; omega), Option.some_bind,
    h9, hsub]
  simp only
  rw [abAppend_saturated _ _ _ (by omega) (by omega) hfull, Option.some_bind,
    abAppend_saturated _ _ 6 (by decide) (by decide) hfull]

/-- None of the bytes of such a cut-off frame is a banner byte 'V' or the final
byte 'h' of show-cursor, and its last byte is a blank. -/
theorem cut_off_frame_bytes (ab : abuf) (k n : Nat) (hV : 'V' ∉ ab) (hh : 'h' ∉ ab) :
    'V' ∉ ab ++ (List.replicate k "~\x1b[K\r\n".toList).flatten ++ '~' :: List.replicate n ' ' ∧
    'h' ∉ ab ++ (List.replicate k "~\x1b[K\r\n".toList).flatten ++ '~' :: List.replicate n ' ' := by
  have hrow : ∀ c : Char, c ∈ (List.replicate k "~\x1b[K\r\n".toList).flatten →
      c ∈ "~\x1b[K\r\n".toList := by
    intro c hc
    obtain ⟨l, hl, hcl⟩ := List.mem_flatten.mp hc
    rw [List.eq_of_mem_replicate hl] at hcl
    exact hcl
  constructor
  · intro h
    rcases List.mem_append.mp h with h1 | h1
    · rcases List.mem_append.mp h1 with h2 | h2
      · exact hV h2
      · exact absurd (hrow _ h2) (by decide)
    · rcases List.mem_cons.mp h1 with h2 | h2
      · exact absurd h2 (by decide)
      · exact absurd (List.eq_of_mem_replicate h2) (by decide)
  · intro h
    rcases List.mem_append.mp h with h1 | h1
    · rcases List.mem_append.mp h1 with h2 | h2
      · exact hh h2
      · exact absurd (hrow _ h2) (by decide)
    · rcases List.mem_cons.mp h1 with h2 | h2
      · exact absurd h2 (by decide)
      · exact absurd (List.eq_of_mem_replicate h2) (by decide)


/-- The welcome row on a screen of at least 26 columns, where
`padding = (screencols - 27) / 2` is not negative, drawn where `screencols` more
bytes fit: for `padding > 0` one "~", `padding - 1` blanks and the banner text;
for `padding = 0` the banner text cut to the screen width and nothing before
it. -/
theorem welcome_row_of_nonneg_padding (E : editorConfig) (ab : abuf)
    (hc : 26 ≤ E.screencols.val)
    (hfit : (ab.length : Int) + E.screencols.val ≤ 2147483647) :
    drawWelcome E ab = some (ab ++
      if 0 < Int.tdiv (E.screencols.val - 27) 2 then
        '~' :: (List.replicate (Int.tdiv (E.screencols.val - 27) 2 - 1).toNat ' ' ++ welcome)
      else welcome.take E.screencols.val.toNat) := by
  have hp := E.screencols.property
  have hl : welcome.length = 27 := by decide
  have hw1 : wrap32 (E.screencols.val - 27) = E.screencols.val - 27 :=
    wrap32_of_range _ (by omega) (by omega)
  have hd : (27 ≤ E.screencols.val ∧
        Int.tdiv (E.screencols.val - 27) 2 = (E.screencols.val - 27) / 2) ∨
      (E.screencols.val = 26 ∧ Int.tdiv (E.screencols.val - 27) 2 = 0) := by
    by_cases h : 27 ≤ E.screencols.val
    · exact Or.inl ⟨h, Int.tdiv_eq_ediv (by omega) (by decide)⟩
    · have h26 : E.screencols.val = 26 := by omega
      exact Or.inr ⟨h26, by rw [h26]; decide⟩
  unfold drawWelcome
  simp only [welcomelen_eq, CInt.ofInt_val, hw1]
  generalize hP : Int.tdiv (E.screencols.val - 27) 2 = P at hd
  have hP0 : 0 ≤ P ∧ 2 * P ≤ E.screencols.val - 26 := by
    rcases hd with ⟨h27, h⟩ | ⟨h26, h⟩
    · rw [h]; omega
    · rw [h]; omega
  have hwP : wrap32 P = P := wrap32_of_range _ (by omega) (by omega)
  rw [hwP]
  by_cases hpos : 0 < P
  · have hne : P ≠ 0 := by omega
    have h27 : ¬ (27 : Int) > E.screencols.val := by omega
    rw [if_pos hne, if_pos hne, if_neg h27, if_pos hpos,
      abAppend_fits ab _ 1 (by decide) (by omega), Option.some_bind,
      padLoop_eq _ (CInt.ofInt (P - 1)) _ rfl (by
        simp only [List.length_append, List.length_take]; omega),
      Option.some_bind]
    have hlen1 : (ab ++ List.take (Int.toNat 1) "~".toList).length = ab.length + 1 := by simp
    have hmin : min ((CInt.ofInt (P - 1)).val % 4294967296).toNat
        (2147483647 - (ab ++ List.take (Int.toNat 1) "~".toList).length) = (P - 1).toNat := by
      simp only [CInt.ofInt_val, wrap32]
      rw [hlen1]; omega
    rw [hmin, abAppend_fits _ _ 27 (by decide) (by
      simp only [List.length_append, List.length_replicate, hlen1]
      push_cast; omega)]
    have ht : List.take (Int.toNat 27) welcome = welcome :=
      List.take_of_length_le (by rw [hl]; decide)
    rw [ht]
    simp
  · have hz : P = 0 := by omega
    subst hz
    have hz0 : ¬ ((0 : Int) ≠ 0) := by decide
    have hcut : welcome.take (if (27 : Int) > E.screencols.val then E.screencols.val else 27).toNat =
        welcome.take E.screencols.val.toNat := by
      split_ifs with h
      · rfl
      · have a1 : welcome.length ≤ E.screencols.val.toNat := by rw [hl]; omega
        have a2 : welcome.length ≤ (27 : Int).toNat := by rw [hl]; decide
        rw [List.take_of_length_le a1, List.take_of_length_le a2]
    have hlen0 : (0 : Int) ≤ (if (27 : Int) > E.screencols.val then E.screencols.val else 27) := by
      split_ifs <;> omega
    have hlen1 : (if (27 : Int) > E.screencols.val then E.screencols.val else 27) ≤
        E.screencols.val := by
      split_ifs <;> omega
    rw [if_neg hz0, if_neg hz0, if_neg hpos, Option.some_bind,
      padLoop_eq 0 _ _ (by decide) (by omega), Option.some_bind]
    rw [abAppend_fits _ _ _ hlen0 (by
      simp only [List.length_append, List.length_replicate, Nat.zero_min]
      push_cast; omega), hcut]
    simp


theorem fmtD_length (n : Int) (h1 : -2147483648 ≤ n) (h2 : n ≤ 2147483647) :
    (fmtD n).length ≤ 11 := by
  unfold fmtD
  split_ifs with h
  · have := Nat.repr_length n.natAbs 10 (by decide) (by omega)
    simp only [List.length_cons, String.length] at *
    show (Nat.repr n.natAbs).data.length + 1 ≤ 11
    omega
  · have := Nat.repr_length n.toNat 10 (by decide) (by omega)
    simp only [String.length] at *
    show (Nat.repr n.toNat).data.length ≤ 11
    omega

/-- The conversion `%d` prints decimal digits, with a minus sign for a negative
number; the cursor sequence of row 24, column 80 is `ESC [ 2 4 ; 8 0 H`. -/
theorem fmtD_samples :
    fmtD 0 = "0".toList ∧ fmtD 1 = "1".toList ∧ fmtD 24 = "24".toList ∧
    fmtD 65535 = "65535".toList ∧ fmtD (-8) = "-8".toList ∧
    snprintfCursor (CInt.ofInt 24) (CInt.ofInt 80) = "\x1b[24;80H".toList := by
  decide

/-- The 32-byte `buf` never cuts the cursor sequence of two `int` arguments. -/
theorem snprintfCursor_eq (row col : CInt) :
    snprintfCursor row col =
      "\x1b[".toList ++ fmtD row.val ++ ";".toList ++ fmtD col.val ++ "H".toList := by
  unfold snprintfCursor
  apply List.take_of_length_le
  have h1 := fmtD_length row.val row.property.1 row.property.2
  have h2 := fmtD_length col.val col.property.1 col.property.2
  simp only [List.length_append]
  have e1 : "\x1b[".toList.length = 2 := by decide
  have e2 : ";".toList.length = 1 := by decide
  have e3 : "H".toList.length = 1 := by decide
  omega

theorem welcomeRowSpec_length (c : Int) (hc : 26 ≤ c) :
    ((welcomeRowSpec c).length : Int) ≤ c := by
  have hl : welcome.length = 27 := by decide
  unfold welcomeRowSpec
  split_ifs with h
  · have h27 : 27 ≤ c := by
      by_contra hlt
      have : c = 26 := by omega
      rw [this] at h
      revert h; decide
    have hd : Int.tdiv (c - 27) 2 = (c - 27) / 2 := Int.tdiv_eq_ediv (by omega) (by decide)
    rw [hd] at h ⊢
    simp only [List.length_cons, List.length_append, List.length_replicate, hl]
    push_cast; omega
  · rw [List.length_take, hl]; omega

theorem rowSpec_length (E : editorConfig) (y : Int) (hc : 26 ≤ E.screencols.val) :
    ((rowSpec E y).length : Int) ≤ E.screencols.val := by
  unfold rowSpec
  split_ifs
  · exact welcomeRowSpec_length _ hc
  · have : ("~".toList).length = 1 := by decide
    rw [this]; push_cast; omega
  · rw [List.length_take]; omega

/-- On a screen of at least 26 columns, with a stored line of non-negative size,
a row drawn where `screencols` more bytes fit is the row of the specification. -/
theorem drawRowContent_spec (E : editorConfig) (y : Int) (ab : abuf)
    (hc : 26 ≤ E.screencols.val) (hs : 0 ≤ E.row.size.val)
    (hfit : (ab.length : Int) + E.screencols.val ≤ 2147483647) :
    drawRowContent E y ab = some (ab ++ rowSpec E y) := by
  unfold drawRowContent rowSpec
  split_ifs with h1 h2 h3
  · exact welcome_row_of_nonneg_padding E ab hc hfit
  · rw [abAppend_fits ab _ 1 (by decide) (by omega)]; rfl
  · rw [abAppend_fits ab _ _ (by omega) (by omega), min_eq_right (le_of_lt h3)]
  · rw [abAppend_fits ab _ _ (by omega) (by omega), min_eq_left (by omega)]

theorem drawRow_spec (E : editorConfig) (y : Int) (ab : abuf)
    (hc : 26 ≤ E.screencols.val) (hs : 0 ≤ E.row.size.val) (hr : 0 < E.screenrows.val)
    (hfit : (ab.length : Int) + (E.screencols.val + 5) ≤ 2147483647) :
    drawRow E y ab = some (ab ++ (rowSpec E y ++ "\x1b[K".toList ++
      (if y < E.screenrows.val - 1 then "\r\n".toList else []))) := by
  have hrp := E.screenrows.property
  have hlen := rowSpec_length E y hc
  unfold drawRow
  rw [drawRowContent_spec E y ab hc hs (by omega), Option.some_bind,
    abAppend_fits _ _ 3 (by decide) (by simp only [List.length_append]; push_cast; omega),
    Option.some_bind, wrap32_of_range _ (by omega) (by omega)]
  split_ifs
  · rw [abAppend_fits _ _ 2 (by decide) (by
      simp only [List.length_append, List.length_take]; push_cast; omega)]
    simp
  · simp

theorem drawRows_spec (E : editorConfig)
    (hc : 26 ≤ E.screencols.val) (hs : 0 ≤ E.row.size.val) (hr : 0 < E.screenrows.val)
    (k : Nat) : ∀ (s : Nat) (ab : abuf),
    (ab.length : Int) + k * (E.screencols.val + 5) ≤ 2147483647 →
    drawRows E (List.range' s k) ab =
      some (ab ++ (List.range' s k).flatMap (fun (y : Nat) =>
        rowSpec E (y : Int) ++ "\x1b[K".toList ++
          (if (y : Int) < E.screenrows.val - 1 then "\r\n".toList else []))) ∧
    ((((List.range' s k).flatMap (fun (y : Nat) =>
        rowSpec E (y : Int) ++ "\x1b[K".toList ++
          (if (y : Int) < E.screenrows.val - 1 then "\r\n".toList else []))).length : Nat) : Int) ≤
      k * (E.screencols.val + 5) := by
  induction k with
  | zero => intro s ab _; simp [drawRows]
  | succ k ih =>
    intro s ab hfit
    have hlen := rowSpec_length E (s : Int) hc
    have hk : (0 : Int) ≤ (k : Int) * (E.screencols.val + 5) :=
      Int.mul_nonneg (by omega) (by omega)
    have hsucc : ((k + 1 : Nat) : Int) * (E.screencols.val + 5) =
        (k : Int) * (E.screencols.val + 5) + (E.screencols.val + 5) := by
      push_cast; ring
    rw [hsucc] at hfit ⊢
    have e3 : ("\x1b[K".toList).length = 3 := by decide
    have e2 : ("\r\n".toList).length = 2 := by decide
    have hpiece : (((rowSpec E (s : Int) ++ "\x1b[K".toList ++
        (if (s : Int) < E.screenrows.val - 1 then "\r\n".toList else [])).length : Nat) : Int) ≤
        E.screencols.val + 5 := by
      split_ifs <;> simp only [List.length_append, e3, e2, List.length_nil] <;>
        (push_cast; omega)
    obtain ⟨ih1, ih2⟩ := ih (s + 1) (ab ++ (rowSpec E (s : Int) ++ "\x1b[K".toList ++
        (if (s : Int) < E.screenrows.val - 1 then "\r\n".toList else []))) (by
      rw [List.length_append]
      generalize (k : Int) * (E.screencols.val + 5) = X at *
      push_cast; omega)
    rw [List.range'_succ]
    simp only [drawRows, List.flatMap_cons]
    rw [drawRow_spec E s ab hc hs hr (by omega), Option.some_bind, ih1]
    refine ⟨by simp, ?_⟩
    rw [List.length_append]
    generalize (k : Int) * (E.screencols.val + 5) = X at *
    push_cast; omega

/-- Away from the defect of the welcome padding: on a screen of at least 26
columns, with a stored line of non-negative size, a cursor whose one-based
coordinates fit an `int`, and rows that fit the buffer, the frame handed to
`write` is the frame of the specification. -/
theorem frame_of_wide_screen (E : editorConfig)
    (hc : 26 ≤ E.screencols.val) (hs : 0 ≤ E.row.size.val) (hr : 0 < E.screenrows.val)
    (hx : E.cx.val < 2147483647) (hy : E.cy.val < 2147483647)
    (hfit : 46 + E.screenrows.val * (E.screencols.val + 5) ≤ 2147483647) :
    editorRefreshScreen E = some (frameSpec E) := by
  have hcx := E.cx.property
  have hcy := E.cy.property
  have e1 : abAppend ABUF_INIT "\x1b[?25l".toList 6 = some "\x1b[?25l".toList := by decide
  have e2 : abAppend "\x1b[?25l".toList "\x1b[H".toList 3 =
      some ("\x1b[?25l".toList ++ "\x1b[H".toList) := by decide
  have h9 : ("\x1b[?25l".toList ++ "\x1b[H".toList).length = 9 := by decide
  have hrows : ((E.screenrows.val.toNat : Nat) : Int) = E.screenrows.val := by omega
  have hrowsfit : ((("\x1b[?25l".toList ++ "\x1b[H".toList).length : Nat) : Int) +
      (E.screenrows.val.toNat : Int) * (E.screencols.val + 5) ≤ 2147483647 := by
    rw [h9, hrows]; push_cast; omega
  obtain ⟨hdraw, hlen⟩ := drawRows_spec E hc hs hr E.screenrows.val.toNat 0 _ hrowsfit
  rw [← List.range_eq_range'] at hdraw hlen
  rw [hrows] at hlen
  have hbuf := snprintfCursor_length (CInt.ofInt (E.cy.val + 1)) (CInt.ofInt (E.cx.val + 1))
  have hbufeq : snprintfCursor (CInt.ofInt (E.cy.val + 1)) (CInt.ofInt (E.cx.val + 1)) =
      "\x1b[".toList ++ fmtD (E.cy.val + 1) ++ ";".toList ++ fmtD (E.cx.val + 1) ++
        "H".toList := by
    rw [snprintfCursor_eq]
    simp only [CInt.ofInt_val]
    rw [wrap32_of_range (E.cy.val + 1) (by omega) (by omega),
      wrap32_of_range (E.cx.val + 1) (by omega) (by omega)]
  unfold editorRefreshScreen editorDrawsRows
  rw [e1, Option.some_bind, e2, Option.some_bind, hdraw, Option.some_bind]
  simp only
  generalize hX : E.screenrows.val * (E.screencols.val + 5) = X at hfit hlen
  rw [abAppend_fits _ _ _ (by omega) (by
      rw [List.length_append, h9]; push_cast; omega),
    Option.some_bind,
    abAppend_fits _ _ 6 (by decide) (by
      simp only [List.length_append, List.length_take, h9] at *
      push_cast; omega)]
  have htake : ∀ l : List Char, l.take ((l.length : Int).toNat) = l := fun l => by simp
  rw [htake, hbufeq]
  unfold frameSpec
  simp

/-- A first line without a newline, followed by a newline, is read up to and
including that newline. -/
theorem readLine_of_no_newline (L rest : List Char) (hL : '\n' ∉ L) :
    readLine (L ++ '\n' :: rest) = L ++ ['\n'] := by
  induction L with
  | nil => simp [readLine]
  | cons c cs ih =>
    have hc : c ≠ '\n' := fun h => hL (by rw [h]; exact List.mem_cons_self _ _)
    have hcs : '\n' ∉ cs := fun h => hL (List.mem_cons_of_mem _ h)
    simp [readLine, hc, ih hcs]

/-- The strip loop removes the one newline that ends such a line and stops. -/
theorem stripLoop_of_no_newline (L : List Char) (hL : '\n' ∉ L) :
    stripLoop (L ++ ['\n']) (L.length + 1) = L.length := by
  have hlast : (L ++ ['\n']).get? L.length = some '\n' := by simp
  rw [stripLoop, if_pos (Or.inl hlast)]
  cases hlen : L.length with
  | zero => rfl
  | succ m =>
    have hm : m < L.length := by omega
    have hget : (L ++ ['\n']).get? m = some (L.get ⟨m, hm⟩) := by
      simp [List.getElem?_append_left hm, List.getElem?_eq_getElem hm]
    have hne : L.get ⟨m, hm⟩ ≠ '\n' := fun h => hL (h ▸ List.get_mem L m hm)
    have hno : ¬ (some (L.get ⟨m, hm⟩) = some '\n' ∨ some (L.get ⟨m, hm⟩) = some '\n') := by
      rintro (h | h) <;> exact hne (Option.some.inj h)
    rw [stripLoop, hget, if_neg hno]

/-! ## Cursor movement and dispatch: C1, C3, C8, C9 -/

/-- C1: from a state whose cursor is on the screen (`0 <= cx < screencols`,
`0 <= cy < screenrows`), dispatch of any byte other than the quit byte returns
into the loop with a state whose cursor is again on the screen; so does
`editorMoveCursor` for every key. -/
theorem C1_cursor_stays_on_screen (E : editorConfig) (c : Char)
    (hE : inBounds E) (hc : c ≠ CTRL_KEY 'q') :
    (∃ E1, editorProcessKeypress E c = Outcome.running E1 ∧ inBounds E1) ∧
      inBounds (editorMoveCursor E c) := by
  refine ⟨?_, editorMoveCursor_inBounds E c hE⟩
  unfold editorProcessKeypress
  rw [if_neg hc]
  split_ifs
  · exact ⟨_, rfl, editorMoveCursor_inBounds E c hE⟩
  · exact ⟨_, rfl, hE⟩

theorem C1_cursor_stays_on_screen_witness :
    inBounds sampleState ∧ 'm' ≠ CTRL_KEY 'q' ∧
      ((∃ E1, editorProcessKeypress sampleState 'm' = Outcome.running E1 ∧ inBounds E1) ∧
        inBounds (editorMoveCursor sampleState 'm')) :=
  ⟨by decide, by decide, C1_cursor_stays_on_screen sampleState 'm' (by decide) (by decide)⟩

theorem editorMoveCursor_h (E : editorConfig) : editorMoveCursor E 'h' =
    if E.cx.val > 0 then { E with cx := CInt.ofInt (E.cx.val - 1) } else E := rfl

theorem editorMoveCursor_m (E : editorConfig) : editorMoveCursor E 'm' =
    if E.cx.val < wrap32 (E.screencols.val - 1) then
      { E with cx := CInt.ofInt (E.cx.val + 1) } else E := rfl

theorem editorMoveCursor_k (E : editorConfig) : editorMoveCursor E 'k' =
    if E.cy.val > 0 then { E with cy := CInt.ofInt (E.cy.val - 1) } else E := rfl

theorem editorMoveCursor_j (E : editorConfig) : editorMoveCursor E 'j' =
    if E.cy.val < wrap32 (E.screenrows.val - 1) then
      { E with cy := CInt.ofInt (E.cy.val + 1) } else E := rfl

/-- C3: on a state whose cursor is on the screen, 'h' sets `cx` to
`max(cx-1, 0)`, 'm' sets `cx` to `min(cx+1, screencols-1)`, 'k' sets `cy` to
`max(cy-1, 0)`, 'j' sets `cy` to `min(cy+1, screenrows-1)`, each changing no
other field; at the matching screen edge the state is unchanged; and dispatch
of each of the four keys is this cursor move. -/
theorem C3_navigation_keys_clamp (E : editorConfig) (hE : inBounds E) :
    ((editorMoveCursor E 'h').cx.val = max (E.cx.val - 1) 0 ∧
      editorMoveCursor E 'h' = { E with cx := (editorMoveCursor E 'h').cx }) ∧
    ((editorMoveCursor E 'm').cx.val = min (E.cx.val + 1) (E.screencols.val - 1) ∧
      editorMoveCursor E 'm' = { E with cx := (editorMoveCursor E 'm').cx }) ∧
    ((editorMoveCursor E 'k').cy.val = max (E.cy.val - 1) 0 ∧
      editorMoveCursor E 'k' = { E with cy := (editorMoveCursor E 'k').cy }) ∧
    ((editorMoveCursor E 'j').cy.val = min (E.cy.val + 1) (E.screenrows.val - 1) ∧
      editorMoveCursor E 'j' = { E with cy := (editorMoveCursor E 'j').cy }) ∧
    (E.cx.val = 0 → editorMoveCursor E 'h' = E) ∧
    (E.cx.val = E.screencols.val - 1 → editorMoveCursor E 'm' = E) ∧
    (E.cy.val = 0 → editorMoveCursor E 'k' = E) ∧
    (E.cy.val = E.screenrows.val - 1 → editorMoveCursor E 'j' = E) ∧
    (∀ key, key = 'h' ∨ key = 'm' ∨ key = 'k' ∨ key = 'j' →
      editorProcessKeypress E key = Outcome.running (editorMoveCursor E key)) := by
  obtain ⟨h1, h2, h3, h4⟩ := hE
  have hc := E.screencols.property
  have hr := E.screenrows.property
  have wc : wrap32 (E.screencols.val - 1) = E.screencols.val - 1 :=
    wrap32_of_range _ (by omega) (by omega)
  have wr : wrap32 (E.screenrows.val - 1) = E.screenrows.val - 1 :=
    wrap32_of_range _ (by omega) (by omega)
  refine ⟨⟨?_, ?_⟩, ⟨?_, ?_⟩, ⟨?_, ?_⟩, ⟨?_, ?_⟩, ?_, ?_, ?_, ?_, ?_⟩
  · rw [editorMoveCursor_h]
    split_ifs with h
    · simp only [CInt.ofInt_val]; rw [wrap32_of_range _ (by omega) (by omega)]; omega
    · omega
  · rw [editorMoveCursor_h]; split_ifs <;> rfl
  · rw [editorMoveCursor_m, wc]
    split_ifs with h
    · simp only [CInt.ofInt_val]; rw [wrap32_of_range _ (by omega) (by omega)]; omega
    · omega
  · rw [editorMoveCursor_m]; split_ifs <;> rfl
  · rw [editorMoveCursor_k]
    split_ifs with h
    · simp only [CInt.ofInt_val]; rw [wrap32_of_range _ (by omega) (by omega)]; omega
    · omega
  · rw [editorMoveCursor_k]; split_ifs <;> rfl
  · rw [editorMoveCursor_j, wr]
    split_ifs with h
    · simp only [CInt.ofInt_val]; rw [wrap32_of_range _ (by omega) (by omega)]; omega
    · omega
  · rw [editorMoveCursor_j]; split_ifs <;> rfl
  · intro h0; rw [editorMoveCursor_h, if_neg (by omega)]
  · intro h0; rw [editorMoveCursor_m, wc, if_neg (by omega)]
  · intro h0; rw [editorMoveCursor_k, if_neg (by omega)]
  · intro h0; rw [editorMoveCursor_j, wr, if_neg (by omega)]
  · intro key hk
    have hq : key ≠ CTRL_KEY 'q' := by
      rcases hk with rfl | rfl | rfl | rfl <;> decide
    unfold editorProcessKeypress
    rw [if_neg hq, if_pos (by tauto)]

theorem C3_navigation_keys_clamp_witness :
    inBounds sampleState ∧
    (((editorMoveCursor sampleState 'h').cx.val = max (sampleState.cx.val - 1) 0 ∧
      editorMoveCursor sampleState 'h' =
        { sampleState with cx := (editorMoveCursor sampleState 'h').cx }) ∧
    ((editorMoveCursor sampleState 'm').cx.val =
        min (sampleState.cx.val + 1) (sampleState.screencols.val - 1) ∧
      editorMoveCursor sampleState 'm' =
        { sampleState with cx := (editorMoveCursor sampleState 'm').cx }) ∧
    ((editorMoveCursor sampleState 'k').cy.val = max (sampleState.cy.val - 1) 0 ∧
      editorMoveCursor sampleState 'k' =
        { sampleState with cy := (editorMoveCursor sampleState 'k').cy }) ∧
    ((editorMoveCursor sampleState 'j').cy.val =
        min (sampleState.cy.val + 1) (sampleState.screenrows.val - 1) ∧
      editorMoveCursor sampleState 'j' =
        { sampleState with cy := (editorMoveCursor sampleState 'j').cy }) ∧
    (sampleState.cx.val = 0 → editorMoveCursor sampleState 'h' = sampleState) ∧
    (sampleState.cx.val = sampleState.screencols.val - 1 →
      editorMoveCursor sampleState 'm' = sampleState) ∧
    (sampleState.cy.val = 0 → editorMoveCursor sampleState 'k' = sampleState) ∧
    (sampleState.cy.val = sampleState.screenrows.val - 1 →
      editorMoveCursor sampleState 'j' = sampleState) ∧
    (∀ key, key = 'h' ∨ key = 'm' ∨ key = 'k' ∨ key = 'j' →
      editorProcessKeypress sampleState key =
        Outcome.running (editorMoveCursor sampleState key))) :=
  ⟨by decide, C3_navigation_keys_clamp sampleState (by decide)⟩

/-- C8: for every state and every byte other than 'h', 'j', 'k', 'm' and the
quit byte, dispatch returns into the loop with the very same state (all of
`cx`, `cy`, `screenrows`, `screencols`, `numrows`, `row`), and
`editorMoveCursor` on such a byte changes nothing either. -/
theorem C8_other_bytes_ignored (E : editorConfig) (c : Char)
    (hh : c ≠ 'h') (hj : c ≠ 'j') (hk : c ≠ 'k') (hm : c ≠ 'm')
    (hq : c ≠ CTRL_KEY 'q') :
    editorProcessKeypress E c = Outcome.running E ∧ editorMoveCursor E c = E := by
  constructor
  · unfold editorProcessKeypress
    rw [if_neg hq, if_neg (by tauto)]
  · unfold editorMoveCursor
    rw [if_neg hh, if_neg hm, if_neg hk, if_neg hj]

theorem C8_other_bytes_ignored_witness :
    'x' ≠ 'h' ∧ 'x' ≠ 'j' ∧ 'x' ≠ 'k' ∧ 'x' ≠ 'm' ∧ 'x' ≠ CTRL_KEY 'q' ∧
      (editorProcessKeypress sampleState 'x' = Outcome.running sampleState ∧
        editorMoveCursor sampleState 'x' = sampleState) :=
  ⟨by decide, by decide, by decide, by decide, by decide,
    C8_other_bytes_ignored sampleState 'x' (by decide) (by decide) (by decide) (by decide)
      (by decide)⟩

/-- C9: the quit byte `CTRL_KEY('q')` is `'q' & 0x1f = 0x11`; dispatch of a byte
ends the process exactly when the byte is the quit byte; on the quit byte the
process ends with exit status 0 after writing cursor-home and clear-screen; so
every outcome that ends the process carries status 0. -/
theorem C9_quit_only_on_ctrl_q (E : editorConfig) (c : Char) :
    CTRL_KEY 'q' = Char.ofNat 0x11 ∧
    ((∃ out status, editorProcessKeypress E c = Outcome.terminated out status) ↔
      c = Char.ofNat 0x11) ∧
    editorProcessKeypress E (Char.ofNat 0x11) =
      Outcome.terminated ("\x1b[H".toList ++ "\x1b[2J".toList) 0 ∧
    (∀ out status, editorProcessKeypress E c = Outcome.terminated out status → status = 0) := by
  refine ⟨CTRL_KEY_q, ?_, ?_, ?_⟩
  · rw [← CTRL_KEY_q]
    constructor
    · rintro ⟨out, status, h⟩
      by_contra hc
      unfold editorProcessKeypress at h
      rw [if_neg hc] at h
      split_ifs at h
    · intro hc
      exact ⟨_, _, by unfold editorProcessKeypress; rw [if_pos hc]⟩
  · rw [← CTRL_KEY_q]; unfold editorProcessKeypress; rw [if_pos rfl]
  · intro out status h
    unfold editorProcessKeypress at h
    split_ifs at h
    injection h with h1 h2
    exact h2.symm

/-! ## Rendering: C2, C4, C5, C6 -/

/-- C2, at the failing input (no file, terminal 10 columns by 24 rows, cursor at
home): the frame handed to `write` is hide-cursor, cursor-home, eight marker
rows, then "~" and 2147483589 blanks, `INT_MAX` bytes in all.  It does not end
with show-cursor, and holds no cursor-position sequence and no row after row 8. -/
theorem C2_frame_cut_off_on_narrow_screen :
    editorRefreshScreen narrowScreen =
      some ("\x1b[?25l".toList ++ "\x1b[H".toList ++
        (List.replicate 8 "~\x1b[K\r\n".toList).flatten ++
        '~' :: List.replicate 2147483589 ' ') ∧
    (∀ out, editorRefreshScreen narrowScreen = some out →
      'h' ∉ out ∧ ∀ body, out ≠ body ++ "\x1b[?25h".toList) := by
  have h := editorRefreshScreen_narrow narrowScreen (by decide) (by decide) (by decide)
    (by decide) (by decide)
  have e1 : (narrowScreen.screenrows.val / 3).toNat = 8 := by decide
  have e2 : (2147483637 - 6 * 8 : Nat) = 2147483589 := by decide
  rw [e1, e2] at h
  refine ⟨h, ?_⟩
  intro out hout
  rw [h] at hout
  have hh : 'h' ∉ out := by
    rw [← Option.some.inj hout]
    exact (cut_off_frame_bytes _ 8 2147483589 (by decide) (by decide)).2
  refine ⟨hh, ?_⟩
  intro body hb
  apply hh
  rw [hb]
  exact List.mem_append_right _ (by decide)

/-- C4, at the failing input (no file, terminal 10 columns by 24 rows): the rows
that `editorDrawsRows` appends behind hide-cursor and cursor-home are eight
marker rows, then "~" and 2147483589 blanks.  No banner byte is drawn (no 'V'),
and rows 9 to 23 are not drawn. -/
theorem C4_no_banner_on_narrow_screen :
    editorDrawsRows narrowScreen ("\x1b[?25l".toList ++ "\x1b[H".toList) =
      some ("\x1b[?25l".toList ++ "\x1b[H".toList ++
        (List.replicate 8 "~\x1b[K\r\n".toList).flatten ++
        '~' :: List.replicate 2147483589 ' ') ∧
    'V' ∉ "\x1b[?25l".toList ++ "\x1b[H".toList ++
        (List.replicate 8 "~\x1b[K\r\n".toList).flatten ++
        '~' :: List.replicate 2147483589 ' ' ∧
    'V' ∈ welcome.take narrowScreen.screencols.val.toNat := by
  have h := editorDrawsRows_narrow narrowScreen ("\x1b[?25l".toList ++ "\x1b[H".toList)
    (by decide) (by decide) (by decide) (by decide) (by decide)
  have e1 : (narrowScreen.screenrows.val / 3).toNat = 8 := by decide
  have e2 : (2147483646 - (("\x1b[?25l".toList ++ "\x1b[H".toList).length + 6 * 8) : Nat) =
      2147483589 := by decide
  rw [e1, e2] at h
  exact ⟨h, (cut_off_frame_bytes _ 8 2147483589 (by decide) (by decide)).1, by decide⟩

/-- C5, at the failing input (no file, terminal 10 columns by 24 rows):
`padding = (10 - 27) / 2 = -8` is not zero, so the welcome row starts with "~";
the padding loop then counts down from -9 through `INT_MIN` and appends blanks
until the buffer holds `INT_MAX` bytes, after which the ten banner bytes are not
appended.  Drawn into an empty buffer the row is "~" and 2147483646 blanks; in
the frame, behind the 57 bytes of the rows above, "~" and 2147483589 blanks.
It is not the banner cut to ten bytes. -/
theorem C5_negative_padding_row :
    Int.tdiv (narrowScreen.screencols.val - welcomelen) 2 = -8 ∧
    rowContent narrowScreen (Int.tdiv narrowScreen.screenrows.val 3) =
      some ('~' :: List.replicate 2147483646 ' ') ∧
    rowContent narrowScreen (Int.tdiv narrowScreen.screenrows.val 3) ≠
      some (welcome.take narrowScreen.screencols.val.toNat) ∧
    drawRowContent narrowScreen 8
        ("\x1b[?25l".toList ++ "\x1b[H".toList ++ (List.replicate 8 "~\x1b[K\r\n".toList).flatten) =
      some ("\x1b[?25l".toList ++ "\x1b[H".toList ++
        (List.replicate 8 "~\x1b[K\r\n".toList).flatten ++
        '~' :: List.replicate 2147483589 ' ') := by
  have hy : narrowScreen.numrows.val ≤ Int.tdiv narrowScreen.screenrows.val 3 := by decide
  have hn : narrowScreen.numrows.val = 0 := by decide
  have h8 : Int.tdiv narrowScreen.screenrows.val 3 = 8 := by decide
  have hrow : rowContent narrowScreen (Int.tdiv narrowScreen.screenrows.val 3) =
      some ('~' :: List.replicate 2147483646 ' ') := by
    unfold rowContent drawRowContent
    rw [if_pos hy, if_pos ⟨hn, rfl⟩,
      drawWelcome_narrow narrowScreen ABUF_INIT (by decide) (by decide) (by decide)]
    rfl
  have hframe := drawWelcome_narrow narrowScreen
    ("\x1b[?25l".toList ++ "\x1b[H".toList ++ (List.replicate 8 "~\x1b[K\r\n".toList).flatten)
    (by decide) (by decide) (by decide)
  have e2 : (2147483646 - ("\x1b[?25l".toList ++ "\x1b[H".toList ++
      (List.replicate 8 "~\x1b[K\r\n".toList).flatten).length : Nat) = 2147483589 := by decide
  rw [e2] at hframe
  refine ⟨by decide, hrow, ?_, ?_⟩
  · rw [hrow]
    intro h
    have hh := congrArg (fun o => o.bind List.head?) h
    revert hh
    decide
  · rw [← h8]
    unfold drawRowContent
    rw [if_pos hy, if_pos ⟨hn, rfl⟩]
    exact hframe

/-- C7: for a file that starts with bytes `L` holding no newline, then one
newline, then anything, `editorOpen` stores exactly the bytes `L` (so no newline
byte is kept), sets `numrows` to 1 and changes no other field; `row.size` is the
length of `L` whenever that length fits an `int`. -/
theorem C7_first_line_loaded (E : editorConfig) (L rest : List Char) (hL : '\n' ∉ L) :
    (editorOpen E (L ++ '\n' :: rest)).row.chars = L ∧
    '\n' ∉ (editorOpen E (L ++ '\n' :: rest)).row.chars ∧
    (editorOpen E (L ++ '\n' :: rest)).numrows.val = 1 ∧
    ((L.length : Int) ≤ 2147483647 →
      (editorOpen E (L ++ '\n' :: rest)).row.size.val = L.length) ∧
    editorOpen E (L ++ '\n' :: rest) =
      { E with row := (editorOpen E (L ++ '\n' :: rest)).row,
               numrows := (editorOpen E (L ++ '\n' :: rest)).numrows } := by
  have hg : getline (L ++ '\n' :: rest) = some (L ++ ['\n']) := by
    unfold getline
    rw [if_neg (by simp), readLine_of_no_newline L rest hL]
  have hs : stripLoop (L ++ ['\n']) (L ++ ['\n']).length = L.length := by
    rw [List.length_append]
    exact stripLoop_of_no_newline L hL
  have hopen : editorOpen E (L ++ '\n' :: rest) =
      { E with row := { size := CInt.ofInt L.length, chars := L },
               numrows := CInt.ofInt 1 } := by
    unfold editorOpen
    rw [hg]
    simp only [hs, List.take_left]
  rw [hopen]
  refine ⟨rfl, hL, rfl, ?_, rfl⟩
  intro hlen
  exact wrap32_of_range _ (by omega) hlen

theorem C7_first_line_loaded_witness :
    '\n' ∉ "hello".toList ∧
    (editorOpen sampleState ("hello".toList ++ '\n' :: "world\n".toList)).row.size.val = 5 ∧
    ((editorOpen sampleState ("hello".toList ++ '\n' :: "world\n".toList)).row.chars =
        "hello".toList ∧
    '\n' ∉ (editorOpen sampleState ("hello".toList ++ '\n' :: "world\n".toList)).row.chars ∧
    (editorOpen sampleState ("hello".toList ++ '\n' :: "world\n".toList)).numrows.val = 1 ∧
    ((("hello".toList).length : Int) ≤ 2147483647 →
      (editorOpen sampleState ("hello".toList ++ '\n' :: "world\n".toList)).row.size.val =
        ("hello".toList).length) ∧
    editorOpen sampleState ("hello".toList ++ '\n' :: "world\n".toList) =
      { sampleState with
        row := (editorOpen sampleState ("hello".toList ++ '\n' :: "world\n".toList)).row,
        numrows :=
          (editorOpen sampleState ("hello".toList ++ '\n' :: "world\n".toList)).numrows }) :=
  ⟨by decide,
    (C7_first_line_loaded sampleState "hello".toList "world\n".toList (by decide)).2.2.2.1
      (by decide),
    C7_first_line_loaded sampleState "hello".toList "world\n".toList (by decide)⟩

/-- C10, at the failing input: for the file "hello\r\n" the strip loop, which
tests for the newline twice and never for the carriage return, removes only
the newline; the stored line is the six bytes "hello\r". -/
theorem C10_carriage_return_kept :
    (editorOpen sampleState "hello\r\n".toList).row.chars = "hello\r".toList ∧
    (editorOpen sampleState "hello\r\n".toList).row.size.val = 6 ∧
    (editorOpen sampleState "hello\r\n".toList).row.chars ≠ "hello".toList := by
  decide

end ViC
